import Mathlib

/-!
Shallow embedding of `src/core/src/components/buffer/status_bar.rs` from the
zee editor: the `StatusCanvas` two-ended bounded compositor and the
`StatusBar::view` nine-fragment render chain, together with the value types
they consume.  External collaborators (the `zi` drawing surface, the
`unicode-width` display-width function, the `size_format` byte formatter,
the git repository handle and the editor's `Mode`/`ModifiedStatus` types)
are modelled at their interface boundary as the spec describes them; the
compositor and assembler logic is translated line-by-line from the source.
-/

namespace ZeeStatusBar

/-- Modelled from the spec: `zi::Style`, an opaque equality-comparable style
record (a "named style attribute"); its internal fields are irrelevant to the
compositor, so it is modelled as a plain tag. -/
structure Style where
  code : Nat
deriving DecidableEq, Repr

/-- One styled cell of the single-row line buffer (spec §3: "a fixed-width,
single-row grid of styled cells"). -/
structure Cell where
  style : Style
  ch : Char
deriving DecidableEq, Repr

/-- Modelled from the spec: `zi::Size` (width and height of the drawing
surface); only `width` matters for this single-row component. -/
structure Size where
  width : Nat
  height : Nat
deriving DecidableEq, Repr

/-- Modelled from the spec: the `zi::Canvas` single-row line buffer, a list of
styled cells indexed by column (row 0 is the only row). -/
abbrev LineCanvas := List Cell

/-- Modelled from the spec: `Canvas::new(size)` followed by `clear(base)` —
a line buffer of `size.width` blank cells carrying the base style. -/
def LineCanvas.cleared (size : Size) (base : Style) : LineCanvas :=
  List.replicate size.width ⟨base, ' '⟩

/-- Modelled from the spec: the writing loop of `Canvas::draw_str` on row 0 —
successive characters are placed at columns `x, x+1, …`; positions outside
the buffer are clipped (`List.set` is the identity out of bounds). -/
def LineCanvas.drawGo : LineCanvas → Nat → Style → List Char → LineCanvas
  | cells, _, _, [] => cells
  | cells, x, style, c :: rest => LineCanvas.drawGo (cells.set x ⟨style, c⟩) x.succ style rest

/-- Modelled from the spec: `Canvas::draw_str(x, 0, style, content)` returns
the updated buffer together with the number of cells written (the content
clipped at the right edge of the buffer). -/
def LineCanvas.draw_str (cells : LineCanvas) (x : Nat) (style : Style) (content : String) :
    LineCanvas × Nat :=
  (LineCanvas.drawGo cells x style content.data, min content.data.length (cells.length - x))

/-- Modelled from the spec: `UnicodeWidthStr::width`, the external Unicode
display-width function (spec §6: `display_width(text) -> non-negative integer
column count`).  Every glyph this component emits is a single-column
character, so the width of a text is its character count. -/
def displayWidth (content : String) : Nat :=
  content.data.length

/-- Modelled from the spec: the external binary-unit byte-size formatter
(spec §6: `format_size(bytes) -> string`, binary-unit human-readable).
Consumed as an opaque pure function; the exact digits are irrelevant to every
claim, only that it is a function of the byte count. -/
def formatSize (bytes : Nat) : String :=
  if bytes < 1024 then toString bytes ++ "B"
  else if bytes < 1024 * 1024 then toString (bytes / 1024) ++ "KiB"
  else if bytes < 1024 * 1024 * 1024 then toString (bytes / (1024 * 1024)) ++ "MiB"
  else toString (bytes / (1024 * 1024 * 1024)) ++ "GiB"

/-- Modelled from the spec: `std::path::PathBuf` at its interface boundary —
the render only consumes the final component (`file_name().and_then(to_str)`,
`none` when the path has no final UTF-8 component) and the full display form
(`path.display()`), so a path is modelled as that pair of observations. -/
structure PathBuf where
  fileNameStr : Option String
  displayStr : String
deriving DecidableEq, Repr

/-- Modelled from the spec: `ModifiedStatus`, the tri-state modification
status (spec §3: "Unchanged / Changed / Saving"); declared in a sibling
module of the repository, not under `src/`. -/
inductive ModifiedStatus where
  | Unchanged
  | Changed
  | Saving
deriving DecidableEq, Repr

/-- Modelled from the spec: the editor `Mode`; the render only reads its
`name`. -/
structure Mode where
  name : String
deriving DecidableEq, Repr

/-- Modelled from the spec: a resolved git reference; the render only calls
`shorthand()`, which yields `none` when no UTF-8 shorthand exists. -/
structure GitReference where
  shorthand : Option String
deriving DecidableEq, Repr

/-- Modelled from the spec: the error value of a failed `Repository::head()`
call ("head not resolvable"). -/
structure GitError where
  code : Nat
deriving DecidableEq, Repr

/-- Outcome of `Repository::head()`: either a resolved reference or an
error. -/
inductive HeadResult where
  | ok (reference : GitReference)
  | err (error : GitError)
deriving DecidableEq, Repr

/-- Modelled from the spec: `RepositoryRc`, the version-control repository
handle; the render only calls `head()`, modelled as the snapshot of that
call's outcome. -/
structure RepositoryRc where
  head : HeadResult
deriving DecidableEq, Repr

/-- `Theme` from the source: one style per semantic category. -/
structure Theme where
  base : Style
  frame_id_focused : Style
  frame_id_unfocused : Style
  is_modified : Style
  is_not_modified : Style
  file_name : Style
  file_size : Style
  position_in_file : Style
  mode : Style
deriving DecidableEq, Repr

/-- `Properties` from the source: the immutable per-render snapshot of editor
state. -/
structure Properties where
  theme : Theme
  current_line_index : Nat
  file_path : Option PathBuf
  focused : Bool
  frame_id : Nat
  has_unsaved_changes : ModifiedStatus
  mode : Mode
  num_lines : Nat
  repository : Option RepositoryRc
  size_bytes : Nat
  visual_cursor_x : Nat
deriving DecidableEq, Repr

/-- The free interval `free : Range<usize>` of the compositor; `stop` stands
for the Rust field `end` (a reserved word in Lean). -/
structure FreeRange where
  start : Nat
  stop : Nat
deriving DecidableEq, Repr

/-- `StatusCanvas` from the source: the line buffer plus the free interval
`[start, stop)` of columns not yet written. -/
structure StatusCanvas where
  canvas : LineCanvas
  free : FreeRange
deriving DecidableEq, Repr

/-- `StatusCanvas::new(size, base)`: a cleared line buffer of `size.width`
columns with the free interval `[0, size.width)`.  The source's
`debug_assert!(size.height == 1)` documents the single-row precondition; the
model uses only the width. -/
def StatusCanvas.new (size : Size) (base : Style) : StatusCanvas :=
  { canvas := LineCanvas.cleared size base, free := ⟨0, size.width⟩ }

/-- `StatusCanvas::remaining_space`: `free.end.saturating_sub(free.start)`
(natural-number subtraction is saturating). -/
def StatusCanvas.remaining_space (sc : StatusCanvas) : Nat :=
  sc.free.stop - sc.free.start

/-- `StatusCanvas::append_start`: if the display width fits in the remaining
space, draw the content at column `free.start`, advance `free.start` by the
number of cells written, and succeed; otherwise fail without change. -/
def StatusCanvas.append_start (sc : StatusCanvas) (style : Style) (content : String) :
    Option StatusCanvas :=
  let width := displayWidth content
  if width ≤ sc.remaining_space then
    let drawn := sc.canvas.draw_str sc.free.start style content
    some { canvas := drawn.1, free := ⟨sc.free.start + drawn.2, sc.free.stop⟩ }
  else
    none

/-- `StatusCanvas::append_end`: if the display width fits in the remaining
space, draw the content at column `free.end - width`, contract `free.end` by
the number of cells written, and succeed; otherwise fail without change. -/
def StatusCanvas.append_end (sc : StatusCanvas) (style : Style) (content : String) :
    Option StatusCanvas :=
  let width := displayWidth content
  if width ≤ sc.remaining_space then
    let drawn := sc.canvas.draw_str (sc.free.stop - width) style content
    some { canvas := drawn.1, free := ⟨sc.free.start, sc.free.stop - drawn.2⟩ }
  else
    none

/-- `PROGRESS_SYMBOLS` from the source: the fixed ordered palette of 8
progress glyphs, from full to empty, ending with a blank glyph. -/
def PROGRESS_SYMBOLS : List Char :=
  ['▇', '▆', '▅', '▄', '▃', '▂', '▁', ' ']

/-- `usize::MAX` on the 64-bit targets the editor supports: the value an
infinite float saturates to under Rust's float-to-integer cast. -/
def USIZE_MAX : Nat := 2 ^ 64 - 1

/-- The progress-glyph index from the source:
`((PROGRESS_SYMBOLS.len() - 1) as f32 * (current_line_index as f32 / num_lines as f32)).round() as usize`.
The source computes with `f32`; the model uses exact rational arithmetic,
with `f32::round` (round half away from zero, here on non-negative values)
modelled as `⌊q + 1/2⌋`.  The two agree at every input where the `f32`
computation is exact, which covers all concrete inputs evaluated below.
Rust's saturating `as usize` cast on the `num_lines == 0` branch maps the
NaN produced by `0.0 / 0.0` to `0` and the positive infinity produced by
`x / 0.0` (for `x > 0`) to `usize::MAX`. -/
def progressIndex (current_line_index num_lines : Nat) : Nat :=
  if num_lines = 0 then
    if current_line_index = 0 then 0 else USIZE_MAX
  else
    (⌊((PROGRESS_SYMBOLS.length - 1 : Nat) : ℚ) *
        ((current_line_index : ℚ) / (num_lines : ℚ)) + 1 / 2⌋).toNat

/-- Rust's `{value:>w}` format padding: right-align in `w` columns, padding
with spaces on the left, never truncating. -/
def rightAlign (s : String) (width : Nat) : String :=
  String.mk (List.replicate (width - s.length) ' ') ++ s

/-- The percentage computed in the position-in-file fragment of
`StatusBar::view`: `100 * (current_line_index + 1) / num_lines` when
`num_lines > 0`, else `100` (natural-number division). -/
def percentOf (current_line_index num_lines : Nat) : Nat :=
  if num_lines > 0 then 100 * (current_line_index + 1) / num_lines else 100

/-- The position-in-file indicator text of `StatusBar::view` (fragment 6):
`" Top "` when on the first line, `" End "` when on line
`num_lines.saturating_sub(2)`, otherwise `" {percent:>2}% "`. -/
def positionText (current_line_index num_lines : Nat) : String :=
  if current_line_index = 0 then " Top "
  else if current_line_index = num_lines - 2 then " End "
  else " " ++ rightAlign (toString (percentOf current_line_index num_lines)) 2 ++ "% "

/-- The branch text of `StatusBar::view` (fragment 9):
`repository.as_ref().map(|repo| repo.head().unwrap()).as_ref().and_then(|r| r.shorthand())`
then `"{branch}  "` on `Some` and `""` on `None`.  The `unwrap()` panics when
`head()` returns an error; a panic is modelled as `none`. -/
def branchText (repository : Option RepositoryRc) : Option String :=
  match repository with
  | none => some ""
  | some repo =>
    match repo.head with
    | .err _ => none
    | .ok reference =>
      match reference.shorthand with
      | some r => some (r ++ "  ")
      | none => some ""

/-- Which edge of the free interval a fragment is appended to; `stop` stands
for the right edge (the Rust `end`). -/
inductive Anchor where
  | start
  | stop
deriving DecidableEq, Repr

/-- One fragment request of the render chain: an anchor, a style and the
fragment text.  `text = none` models a panic raised while computing the
text (it is an `Option` because two of the nine computations can panic). -/
structure FragReq where
  anchor : Anchor
  style : Style
  text : Option String
deriving DecidableEq, Repr

/-- Dispatch one append to the edge selected by the anchor. -/
def applyAppend (sc : StatusCanvas) (anchor : Anchor) (style : Style) (content : String) :
    Option StatusCanvas :=
  match anchor with
  | .start => sc.append_start style content
  | .stop => sc.append_end style content

/-- The nine fragment requests of `StatusBar::view`, in the source's fixed
order: buffer number, modification glyph, progress glyph, file size, file
name, position-in-file, line:column, mode name, branch name. -/
def statusFrags (p : Properties) : List FragReq :=
  [ -- 1. Buffer number
    ⟨.start,
      if p.focused then p.theme.frame_id_focused else p.theme.frame_id_unfocused,
      some (" " ++ toString p.frame_id ++ " ")⟩,
    -- 2. Has unsaved changes
    ⟨.start,
      match p.has_unsaved_changes with
      | .Unchanged => p.theme.is_not_modified
      | _ => p.theme.is_modified,
      some (match p.has_unsaved_changes with
      | .Unchanged => " - "
      | .Changed | .Saving => " ❄ ")⟩,
    -- 3. Visual indicator for current position in the file, right-aligned
    if p.focused then
      ⟨.stop, p.theme.frame_id_focused,
        (PROGRESS_SYMBOLS[progressIndex p.current_line_index p.num_lines]?).map
          (fun c => String.mk [c])⟩
    else
      ⟨.stop, p.theme.position_in_file, some " "⟩,
    -- 4. File size
    ⟨.start, p.theme.file_size, some (" " ++ formatSize p.size_bytes)⟩,
    -- 5. File name if buffer is backed by a file
    ⟨.start, p.theme.file_name,
      some (match p.file_path with
      | none => ""
      | some path =>
        match path.fileNameStr with
        | some fn => " " ++ fn
        | none => " " ++ path.displayStr)⟩,
    -- 6. The current position in the file as a percentage, right-aligned
    ⟨.stop, p.theme.position_in_file,
      some (positionText p.current_line_index p.num_lines)⟩,
    -- 7. The row:column in the file, right-aligned
    ⟨.stop, p.theme.is_not_modified,
      some (" " ++ rightAlign (toString p.current_line_index) 3 ++ ":" ++
        rightAlign (toString p.visual_cursor_x) 2 ++ " ")⟩,
    -- 8. Name of the current mode
    ⟨.start, p.theme.mode, some ("  " ++ p.mode.name)⟩,
    -- 9. Name of the repo, right-aligned
    ⟨.stop, p.theme.position_in_file, branchText p.repository⟩ ]

/-- The `Option::and_then` chain of `StatusBar::view` acting on the
in-place canvas: each fragment's text is computed only when the chain
reaches it (`none` text = panic aborts the whole render); a failed append
stops the chain but the buffer mutated so far is still the render's result
(`canvas.into()` is unconditional in the source). -/
def renderFrags (sc : StatusCanvas) : List FragReq → Option StatusCanvas
  | [] => some sc
  | frag :: rest =>
    match frag.text with
    | none => none
    | some text =>
      match applyAppend sc frag.anchor frag.style text with
      | some sc2 => renderFrags sc2 rest
      | none => some sc

/-- The same chain, but demanding that every append succeed (the value of
the Rust `Option` chain itself). -/
def chainAll (sc : StatusCanvas) : List FragReq → Option StatusCanvas
  | [] => some sc
  | frag :: rest =>
    match frag.text with
    | none => none
    | some text =>
      match applyAppend sc frag.anchor frag.style text with
      | some sc2 => chainAll sc2 rest
      | none => none

/-- `StatusBar::view`: build a fresh `StatusCanvas` for the frame, run the
nine-fragment chain, and hand back the underlying buffer; `none` models a
render that panics while computing a fragment text. -/
def StatusBar.view (p : Properties) (frame : Size) : Option StatusCanvas :=
  renderFrags (StatusCanvas.new frame p.theme.base) (statusFrags p)

/-- A raw compositor operation, for reasoning about arbitrary sequences of
`append_start`/`append_end` calls. -/
structure Op where
  anchor : Anchor
  style : Style
  text : String
deriving DecidableEq, Repr

/-- Run a sequence of raw append operations; a failed append leaves the
compositor unchanged and the sequence continues (this subsumes the chained
usage, which runs a prefix of the sequence). -/
def runOps (sc : StatusCanvas) : List Op → StatusCanvas
  | [] => sc
  | op :: rest =>
    match applyAppend sc op.anchor op.style op.text with
    | some sc2 => runOps sc2 rest
    | none => runOps sc rest

/-- The display widths of the operations accepted along a run. -/
def acceptedWidths (sc : StatusCanvas) : List Op → List Nat
  | [] => []
  | op :: rest =>
    match applyAppend sc op.anchor op.style op.text with
    | some sc2 => displayWidth op.text :: acceptedWidths sc2 rest
    | none => acceptedWidths sc rest

/-- The half-open column range `[fst, snd)` an operation would occupy if
accepted in state `sc`. -/
def opRange (sc : StatusCanvas) (op : Op) : Nat × Nat :=
  match op.anchor with
  | .start => (sc.free.start, sc.free.start + displayWidth op.text)
  | .stop => (sc.free.stop - displayWidth op.text, sc.free.stop)

/-- The column ranges of the operations accepted along a run, in order of
acceptance. -/
def acceptedRanges (sc : StatusCanvas) : List Op → List (Nat × Nat)
  | [] => []
  | op :: rest =>
    match applyAppend sc op.anchor op.style op.text with
    | some sc2 => opRange sc op :: acceptedRanges sc2 rest
    | none => acceptedRanges sc rest

/-- Two half-open column ranges are disjoint: no column lies in both. -/
def RangeDisjoint (a b : Nat × Nat) : Prop :=
  ∀ i : Nat, a.1 ≤ i → i < a.2 → ¬(b.1 ≤ i ∧ i < b.2)

/-- Well-formedness of a compositor state as constructed by the program:
the free interval is not inverted and lies inside the line buffer. -/
def StatusCanvas.Inv (sc : StatusCanvas) : Prop :=
  sc.free.start ≤ sc.free.stop ∧ sc.free.stop ≤ sc.canvas.length

/-! ### Concrete fixtures used by witness theorems -/

/-- A concrete unfocused snapshot on which the render chain runs out of
space after two fragments on a 6-column line. -/
def c1Props : Properties :=
  { theme := ⟨⟨0⟩, ⟨1⟩, ⟨2⟩, ⟨3⟩, ⟨4⟩, ⟨5⟩, ⟨6⟩, ⟨7⟩, ⟨8⟩⟩
    current_line_index := 0
    file_path := none
    focused := false
    frame_id := 1
    has_unsaved_changes := ModifiedStatus.Unchanged
    mode := ⟨"normal"⟩
    num_lines := 100
    repository := none
    size_bytes := 0
    visual_cursor_x := 0 }

/-- The compositor state reached after the first two fragments of
`c1Props` on a 6-column line: `" 1 "` then `" - "`, free interval empty. -/
def c1State : StatusCanvas :=
  { canvas := [⟨⟨2⟩, ' '⟩, ⟨⟨2⟩, '1'⟩, ⟨⟨2⟩, ' '⟩, ⟨⟨4⟩, ' '⟩, ⟨⟨4⟩, '-'⟩, ⟨⟨4⟩, ' '⟩]
    free := ⟨6, 6⟩ }

/-- A concrete snapshot on line 49 of 100, for the percentage fragment. -/
def c5Props : Properties :=
  { theme := ⟨⟨0⟩, ⟨1⟩, ⟨2⟩, ⟨3⟩, ⟨4⟩, ⟨5⟩, ⟨6⟩, ⟨7⟩, ⟨8⟩⟩
    current_line_index := 49
    file_path := none
    focused := false
    frame_id := 1
    has_unsaved_changes := ModifiedStatus.Unchanged
    mode := ⟨"normal"⟩
    num_lines := 100
    repository := none
    size_bytes := 0
    visual_cursor_x := 0 }

/-- A concrete snapshot whose repository head resolves to branch `main`. -/
def c8Props : Properties :=
  { theme := ⟨⟨0⟩, ⟨1⟩, ⟨2⟩, ⟨3⟩, ⟨4⟩, ⟨5⟩, ⟨6⟩, ⟨7⟩, ⟨8⟩⟩
    current_line_index := 0
    file_path := none
    focused := false
    frame_id := 1
    has_unsaved_changes := ModifiedStatus.Unchanged
    mode := ⟨"normal"⟩
    num_lines := 100
    repository := some ⟨HeadResult.ok ⟨some "main"⟩⟩
    size_bytes := 0
    visual_cursor_x := 0 }

/-- A concrete snapshot for the determinism witness. -/
def c9Props : Properties :=
  { theme := ⟨⟨0⟩, ⟨1⟩, ⟨2⟩, ⟨3⟩, ⟨4⟩, ⟨5⟩, ⟨6⟩, ⟨7⟩, ⟨8⟩⟩
    current_line_index := 3
    file_path := some ⟨some "b.txt", "a/b.txt"⟩
    focused := false
    frame_id := 1
    has_unsaved_changes := ModifiedStatus.Changed
    mode := ⟨"normal"⟩
    num_lines := 100
    repository := none
    size_bytes := 2048
    visual_cursor_x := 0 }

/-! ### Basic lemmas about the drawing loop -/

theorem drawGo_length (content : List Char) :
    ∀ (cells : LineCanvas) (x : Nat) (style : Style),
      (LineCanvas.drawGo cells x style content).length = cells.length := by
  induction content with
  | nil => intro cells x style; rfl
  | cons c rest ih =>
    intro cells x style
    show (LineCanvas.drawGo (cells.set x ⟨style, c⟩) x.succ style rest).length = _
    rw [ih, List.length_set]

theorem drawGo_getElem?_lt (content : List Char) :
    ∀ (cells : LineCanvas) (x : Nat) (style : Style) (j : Nat), j < x →
      (LineCanvas.drawGo cells x style content)[j]? = cells[j]? := by
  induction content with
  | nil => intro cells x style j _; rfl
  | cons c rest ih =>
    intro cells x style j hj
    show (LineCanvas.drawGo (cells.set x ⟨style, c⟩) x.succ style rest)[j]? = _
    rw [ih _ _ _ _ (Nat.lt_succ_of_lt hj), List.getElem?_set_ne (Nat.ne_of_gt hj)]

theorem drawGo_getElem?_ge (content : List Char) :
    ∀ (cells : LineCanvas) (x : Nat) (style : Style) (j : Nat), x + content.length ≤ j →
      (LineCanvas.drawGo cells x style content)[j]? = cells[j]? := by
  induction content with
  | nil => intro cells x style j _; rfl
  | cons c rest ih =>
    intro cells x style j hj
    simp only [List.length_cons] at hj
    show (LineCanvas.drawGo (cells.set x ⟨style, c⟩) x.succ style rest)[j]? = _
    rw [ih _ x.succ _ _ (by omega), List.getElem?_set_ne (by omega)]

theorem drawGo_getElem?_in (content : List Char) :
    ∀ (cells : LineCanvas) (x : Nat) (style : Style) (i : Nat) (hi : i < content.length),
      x + i < cells.length →
      (LineCanvas.drawGo cells x style content)[x + i]? = some ⟨style, content[i]⟩ := by
  induction content with
  | nil => intro cells x style i hi; simp at hi
  | cons c rest ih =>
    intro cells x style i hi hx
    show (LineCanvas.drawGo (cells.set x ⟨style, c⟩) x.succ style rest)[x + i]? = _
    match i with
    | 0 =>
      rw [drawGo_getElem?_lt rest _ _ _ _ (by omega)]
      simpa using List.getElem?_set_self (by omega)
    | i' + 1 =>
      have hstep : x + (i' + 1) = x.succ + i' := by omega
      rw [hstep, ih _ x.succ _ i' (by simp at hi; omega) (by rw [List.length_set]; omega)]
      simp

/-! ### Characterizing the two append operations -/

theorem append_start_of_fits {sc : StatusCanvas} {style : Style} {content : String}
    (h : displayWidth content ≤ sc.remaining_space) :
    sc.append_start style content =
      some { canvas := LineCanvas.drawGo sc.canvas sc.free.start style content.data,
             free := ⟨sc.free.start + min content.data.length (sc.canvas.length - sc.free.start),
                      sc.free.stop⟩ } := by
  simp [StatusCanvas.append_start, LineCanvas.draw_str, h]

theorem append_end_of_fits {sc : StatusCanvas} {style : Style} {content : String}
    (h : displayWidth content ≤ sc.remaining_space) :
    sc.append_end style content =
      some { canvas := LineCanvas.drawGo sc.canvas (sc.free.stop - displayWidth content)
                        style content.data,
             free := ⟨sc.free.start,
                      sc.free.stop -
                        min content.data.length
                          (sc.canvas.length - (sc.free.stop - displayWidth content))⟩ } := by
  simp [StatusCanvas.append_end, LineCanvas.draw_str, h]

theorem append_start_of_not_fits {sc : StatusCanvas} {style : Style} {content : String}
    (h : ¬ displayWidth content ≤ sc.remaining_space) :
    sc.append_start style content = none := by
  simp [StatusCanvas.append_start, h]

theorem append_end_of_not_fits {sc : StatusCanvas} {style : Style} {content : String}
    (h : ¬ displayWidth content ≤ sc.remaining_space) :
    sc.append_end style content = none := by
  simp [StatusCanvas.append_end, h]

theorem written_start_eq {sc : StatusCanvas} {content : String}
    (hwf : sc.free.stop ≤ sc.canvas.length)
    (h : displayWidth content ≤ sc.remaining_space) :
    min content.data.length (sc.canvas.length - sc.free.start) = displayWidth content := by
  unfold displayWidth at *
  unfold StatusCanvas.remaining_space at h
  rw [Nat.min_def]
  split <;> omega

theorem written_end_eq {sc : StatusCanvas} {content : String}
    (hwf : sc.free.stop ≤ sc.canvas.length)
    (h : displayWidth content ≤ sc.remaining_space) :
    min content.data.length (sc.canvas.length - (sc.free.stop - displayWidth content)) =
      displayWidth content := by
  unfold displayWidth at *
  unfold StatusCanvas.remaining_space at h
  rw [Nat.min_def]
  split <;> omega

/-- Success of either append never moves the left edge left, never moves the
right edge right, and preserves the buffer length (no well-formedness
assumption needed). -/
theorem applyAppend_mono {sc sc₂ : StatusCanvas} {a : Anchor} {style : Style} {t : String}
    (h : applyAppend sc a style t = some sc₂) :
    sc.free.start ≤ sc₂.free.start ∧ sc₂.free.stop ≤ sc.free.stop ∧
      sc₂.canvas.length = sc.canvas.length := by
  cases a
  case start =>
    by_cases hfit : displayWidth t ≤ sc.remaining_space
    · rw [show applyAppend sc Anchor.start style t = sc.append_start style t from rfl,
        append_start_of_fits hfit, Option.some.injEq] at h
      cases h
      exact ⟨Nat.le_add_right .., Nat.le_refl _, drawGo_length ..⟩
    · rw [show applyAppend sc Anchor.start style t = sc.append_start style t from rfl,
        append_start_of_not_fits hfit] at h
      cases h
  case stop =>
    by_cases hfit : displayWidth t ≤ sc.remaining_space
    · rw [show applyAppend sc Anchor.stop style t = sc.append_end style t from rfl,
        append_end_of_fits hfit, Option.some.injEq] at h
      cases h
      exact ⟨Nat.le_refl _, Nat.sub_le .., drawGo_length ..⟩
    · rw [show applyAppend sc Anchor.stop style t = sc.append_end style t from rfl,
        append_end_of_not_fits hfit] at h
      cases h

/-- Either append fails exactly when the text is wider than the remaining
space. -/
theorem applyAppend_eq_none_iff {sc : StatusCanvas} {a : Anchor} {style : Style} {t : String} :
    applyAppend sc a style t = none ↔ sc.remaining_space < displayWidth t := by
  cases a <;>
    simp only [applyAppend, StatusCanvas.append_start, StatusCanvas.append_end] <;>
    split <;> simp <;> omega

/-- Detailed postcondition of a successful append in a well-formed state:
the free interval shrinks by exactly the display width at the anchored edge,
well-formedness is preserved, and the remaining space decreases by exactly
the display width. -/
theorem applyAppend_inv {sc sc₂ : StatusCanvas} {a : Anchor} {style : Style} {t : String}
    (hwf : sc.Inv) (h : applyAppend sc a style t = some sc₂) :
    sc₂.Inv ∧ displayWidth t ≤ sc.remaining_space ∧
      sc₂.remaining_space + displayWidth t = sc.remaining_space ∧
      sc₂.canvas.length = sc.canvas.length ∧
      (a = Anchor.start →
        sc₂.free.start = sc.free.start + displayWidth t ∧ sc₂.free.stop = sc.free.stop) ∧
      (a = Anchor.stop →
        sc₂.free.start = sc.free.start ∧ sc₂.free.stop = sc.free.stop - displayWidth t) := by
  obtain ⟨hse, hlen⟩ := hwf
  cases a
  case start =>
    by_cases hfit : displayWidth t ≤ sc.remaining_space
    · rw [show applyAppend sc Anchor.start style t = sc.append_start style t from rfl,
        append_start_of_fits hfit, Option.some.injEq] at h
      rw [written_start_eq hlen hfit] at h
      cases h
      refine ⟨⟨?_, ?_⟩, hfit, ?_, ?_, fun _ => ⟨rfl, rfl⟩, fun hc => Anchor.noConfusion hc⟩
      · show sc.free.start + displayWidth t ≤ sc.free.stop
        unfold StatusCanvas.remaining_space at hfit
        omega
      · show sc.free.stop ≤ (LineCanvas.drawGo _ _ _ _).length
        rw [drawGo_length]
        exact hlen
      · show (sc.free.stop - (sc.free.start + displayWidth t)) + displayWidth t = _
        unfold StatusCanvas.remaining_space at hfit ⊢
        omega
      · exact drawGo_length ..
    · rw [show applyAppend sc Anchor.start style t = sc.append_start style t from rfl,
        append_start_of_not_fits hfit] at h
      cases h
  case stop =>
    by_cases hfit : displayWidth t ≤ sc.remaining_space
    · rw [show applyAppend sc Anchor.stop style t = sc.append_end style t from rfl,
        append_end_of_fits hfit, Option.some.injEq] at h
      rw [written_end_eq hlen hfit] at h
      cases h
      refine ⟨⟨?_, ?_⟩, hfit, ?_, ?_, fun hc => Anchor.noConfusion hc, fun _ => ⟨rfl, rfl⟩⟩
      · show sc.free.start ≤ sc.free.stop - displayWidth t
        unfold StatusCanvas.remaining_space at hfit
        omega
      · show sc.free.stop - displayWidth t ≤ (LineCanvas.drawGo _ _ _ _).length
        rw [drawGo_length]
        omega
      · show (sc.free.stop - displayWidth t - sc.free.start) + displayWidth t = _
        unfold StatusCanvas.remaining_space at hfit ⊢
        omega
      · exact drawGo_length ..
    · rw [show applyAppend sc Anchor.stop style t = sc.append_end style t from rfl,
        append_end_of_not_fits hfit] at h
      cases h

/-- The freshly constructed compositor is well-formed. -/
theorem new_inv (size : Size) (base : Style) : (StatusCanvas.new size base).Inv := by
  constructor
  · exact Nat.zero_le _
  · show size.width ≤ (List.replicate size.width _).length
    rw [List.length_replicate]

/-! ### The render chain stops at the first rejected fragment -/

theorem renderFrags_prefix_fail (l₁ : List FragReq) :
    ∀ (sc sc' : StatusCanvas) (frag : FragReq) (l₂ : List FragReq) (text : String),
      chainAll sc l₁ = some sc' → frag.text = some text →
      applyAppend sc' frag.anchor frag.style text = none →
      renderFrags sc (l₁ ++ frag :: l₂) = some sc' := by
  induction l₁ with
  | nil =>
    intro sc sc' frag l₂ text hpre htext hfail
    simp only [chainAll, Option.some.injEq] at hpre
    subst hpre
    simp [renderFrags, htext, hfail]
  | cons f rest ih =>
    intro sc sc' frag l₂ text hpre htext hfail
    cases hft : f.text with
    | none => simp [chainAll, hft] at hpre
    | some t =>
      cases happ : applyAppend sc f.anchor f.style t with
      | none => simp [chainAll, hft, happ] at hpre
      | some sc₂ =>
        simp only [chainAll, hft, happ] at hpre
        show renderFrags sc (f :: (rest ++ frag :: l₂)) = some sc'
        simp only [renderFrags, hft, happ]
        exact ih sc₂ sc' frag l₂ text hpre htext hfail

/-! ### Runs of raw operation sequences -/

theorem runOps_append (l₁ l₂ : List Op) :
    ∀ sc : StatusCanvas, runOps sc (l₁ ++ l₂) = runOps (runOps sc l₁) l₂ := by
  induction l₁ with
  | nil => intro sc; rfl
  | cons op rest ih =>
    intro sc
    show runOps sc (op :: (rest ++ l₂)) = _
    cases happ : applyAppend sc op.anchor op.style op.text with
    | none => simp only [runOps, happ]; exact ih sc
    | some sc₂ => simp only [runOps, happ]; exact ih sc₂

theorem runOps_mono (l : List Op) :
    ∀ sc : StatusCanvas,
      sc.free.start ≤ (runOps sc l).free.start ∧
        (runOps sc l).free.stop ≤ sc.free.stop ∧
        (runOps sc l).canvas.length = sc.canvas.length := by
  induction l with
  | nil => intro sc; exact ⟨Nat.le_refl _, Nat.le_refl _, rfl⟩
  | cons op rest ih =>
    intro sc
    cases happ : applyAppend sc op.anchor op.style op.text with
    | none => simp only [runOps, happ]; exact ih sc
    | some sc₂ =>
      simp only [runOps, happ]
      obtain ⟨h1, h2, h3⟩ := applyAppend_mono happ
      obtain ⟨h4, h5, h6⟩ := ih sc₂
      exact ⟨Nat.le_trans h1 h4, Nat.le_trans h5 h2, h6.trans h3⟩

theorem runOps_inv (l : List Op) :
    ∀ sc : StatusCanvas, sc.Inv → (runOps sc l).Inv := by
  induction l with
  | nil => intro sc h; exact h
  | cons op rest ih =>
    intro sc h
    cases happ : applyAppend sc op.anchor op.style op.text with
    | none => simp only [runOps, happ]; exact ih sc h
    | some sc₂ =>
      simp only [runOps, happ]
      exact ih sc₂ (applyAppend_inv h happ).1

theorem acceptedWidths_sum (l : List Op) :
    ∀ sc : StatusCanvas, sc.Inv →
      (acceptedWidths sc l).sum + (runOps sc l).remaining_space = sc.remaining_space := by
  induction l with
  | nil => intro sc _; simp [acceptedWidths, runOps]
  | cons op rest ih =>
    intro sc h
    cases happ : applyAppend sc op.anchor op.style op.text with
    | none => simp only [acceptedWidths, runOps, happ]; exact ih sc h
    | some sc₂ =>
      simp only [acceptedWidths, runOps, happ, List.sum_cons]
      obtain ⟨hinv₂, _, hsum, _, _, _⟩ := applyAppend_inv h happ
      have := ih sc₂ hinv₂
      omega

theorem acceptedRanges_subset (l : List Op) :
    ∀ sc : StatusCanvas, sc.Inv →
      ∀ r ∈ acceptedRanges sc l, sc.free.start ≤ r.1 ∧ r.2 ≤ sc.free.stop := by
  induction l with
  | nil => intro sc _ r hr; simp [acceptedRanges] at hr
  | cons op rest ih =>
    intro sc h r hr
    cases happ : applyAppend sc op.anchor op.style op.text with
    | none =>
      simp only [acceptedRanges, happ] at hr
      exact ih sc h r hr
    | some sc₂ =>
      simp only [acceptedRanges, happ, List.mem_cons] at hr
      obtain ⟨hinv₂, hfit, _, _, hstart, hstop⟩ := applyAppend_inv h happ
      unfold StatusCanvas.remaining_space at hfit
      obtain ⟨hse, _⟩ := h
      cases hr with
      | inl hr =>
        subst hr
        cases hα : op.anchor <;> simp only [opRange, hα] <;> constructor <;> omega
      | inr hr =>
        obtain ⟨h1, h2⟩ := ih sc₂ hinv₂ r hr
        obtain ⟨m1, m2, _⟩ := applyAppend_mono happ
        exact ⟨Nat.le_trans m1 h1, Nat.le_trans h2 m2⟩

theorem acceptedRanges_pairwise (l : List Op) :
    ∀ sc : StatusCanvas, sc.Inv →
      List.Pairwise RangeDisjoint (acceptedRanges sc l) := by
  induction l with
  | nil => intro sc _; simp [acceptedRanges]
  | cons op rest ih =>
    intro sc h
    cases happ : applyAppend sc op.anchor op.style op.text with
    | none =>
      simp only [acceptedRanges, happ]
      exact ih sc h
    | some sc₂ =>
      simp only [acceptedRanges, happ]
      obtain ⟨hinv₂, hfit, _, _, hstart, hstop⟩ := applyAppend_inv h happ
      unfold StatusCanvas.remaining_space at hfit
      obtain ⟨hse, _⟩ := h
      refine List.Pairwise.cons ?_ (ih sc₂ hinv₂)
      intro r hr
      obtain ⟨h1, h2⟩ := acceptedRanges_subset rest sc₂ hinv₂ r hr
      cases hα : op.anchor with
      | start =>
        obtain ⟨e1, e2⟩ := hstart hα
        simp only [opRange, hα]
        intro i _ hi2 ⟨hb1, _⟩
        omega
      | stop =>
        obtain ⟨e1, e2⟩ := hstop hα
        simp only [opRange, hα]
        intro i hi1 _ ⟨_, hb2⟩
        omega

/-! ### The progress-glyph index as integer arithmetic -/

/-- For a nonzero line count the rational model of the `f32` formula equals
the natural-number division `(14 * c + n) / (2 * n)` — the two sides denote
the same rational floor. -/
theorem progressIndex_eq_div (c n : Nat) (hn : n ≠ 0) :
    progressIndex c n = (14 * c + n) / (2 * n) := by
  unfold progressIndex
  rw [if_neg hn]
  have h7 : ((PROGRESS_SYMBOLS.length - 1 : Nat) : ℚ) = 7 := by norm_num [PROGRESS_SYMBOLS]
  rw [h7]
  have hn' : (n : ℚ) ≠ 0 := Nat.cast_ne_zero.mpr hn
  have hq : (7 : ℚ) * ((c : ℚ) / (n : ℚ)) + 1 / 2 =
      ((14 * c + n : ℕ) : ℚ) / ((2 * n : ℕ) : ℚ) := by
    push_cast
    field_simp
    ring
  rw [hq, Int.floor_toNat, Nat.floor_div_eq_div]

theorem progressIndex_le_seven (c n : Nat) (h1 : 1 ≤ n) (hc : c ≤ n) :
    progressIndex c n ≤ 7 := by
  rw [progressIndex_eq_div c n (by omega)]
  have hlt : (14 * c + n) / (2 * n) < 8 :=
    (Nat.div_lt_iff_lt_mul (by omega)).mpr (by omega)
  omega

/-! ### Claim theorems -/

/-- **C2**: for every compositor state arising in the program (the free
interval ends inside the buffer, an invariant of every state built by
`new`/appends) and every text, `append_start` (and symmetrically
`append_end`) succeeds if and only if the display width fits in the
remaining space; on success it writes the text's characters with the given
style starting at `free.start` (resp. at `free.stop - width`), leaves every
other cell unchanged, and shrinks the free interval by exactly the display
width at the anchored edge; on failure it returns `none` (the functional
model returns no new state, matching the source's unchanged buffer). -/
theorem c2_append_contract (sc : StatusCanvas) (style : Style) (content : String)
    (hwf : sc.free.stop ≤ sc.canvas.length) :
    ((sc.append_start style content).isSome ↔ displayWidth content ≤ sc.remaining_space) ∧
    ((sc.append_end style content).isSome ↔ displayWidth content ≤ sc.remaining_space) ∧
    (∀ sc₂, sc.append_start style content = some sc₂ →
      sc₂.free.start = sc.free.start + displayWidth content ∧
      sc₂.free.stop = sc.free.stop ∧
      (∀ i, i < displayWidth content →
        sc₂.canvas[sc.free.start + i]? = (content.data[i]?).map (Cell.mk style)) ∧
      (∀ j, j < sc.free.start ∨ sc.free.start + displayWidth content ≤ j →
        sc₂.canvas[j]? = sc.canvas[j]?)) ∧
    (∀ sc₂, sc.append_end style content = some sc₂ →
      sc₂.free.start = sc.free.start ∧
      sc₂.free.stop = sc.free.stop - displayWidth content ∧
      (∀ i, i < displayWidth content →
        sc₂.canvas[sc.free.stop - displayWidth content + i]? =
          (content.data[i]?).map (Cell.mk style)) ∧
      (∀ j, j < sc.free.stop - displayWidth content ∨ sc.free.stop ≤ j →
        sc₂.canvas[j]? = sc.canvas[j]?)) ∧
    (sc.append_start style content = none ↔ sc.remaining_space < displayWidth content) ∧
    (sc.append_end style content = none ↔ sc.remaining_space < displayWidth content) := by
  have hwidth : displayWidth content = content.data.length := rfl
  refine ⟨?_, ?_, ?_, ?_, ?_, ?_⟩
  · by_cases hfit : displayWidth content ≤ sc.remaining_space
    · rw [append_start_of_fits hfit]; simpa using hfit
    · rw [append_start_of_not_fits hfit]; simpa using hfit
  · by_cases hfit : displayWidth content ≤ sc.remaining_space
    · rw [append_end_of_fits hfit]; simpa using hfit
    · rw [append_end_of_not_fits hfit]; simpa using hfit
  · intro sc₂ h
    by_cases hfit : displayWidth content ≤ sc.remaining_space
    · rw [append_start_of_fits hfit, Option.some.injEq] at h
      rw [written_start_eq hwf hfit] at h
      have hrem : displayWidth content ≤ sc.free.stop - sc.free.start := hfit
      cases h
      refine ⟨rfl, rfl, ?_, ?_⟩
      · intro i hi
        show (LineCanvas.drawGo sc.canvas sc.free.start style content.data)[_]? = _
        rw [drawGo_getElem?_in content.data sc.canvas sc.free.start style i
          (hwidth ▸ hi) (by omega),
          List.getElem?_eq_getElem (hwidth ▸ hi)]
        rfl
      · intro j hj
        show (LineCanvas.drawGo sc.canvas sc.free.start style content.data)[j]? = _
        cases hj with
        | inl hj => exact drawGo_getElem?_lt content.data sc.canvas sc.free.start style j hj
        | inr hj =>
          exact drawGo_getElem?_ge content.data sc.canvas sc.free.start style j
            (hwidth ▸ hj)
    · rw [append_start_of_not_fits hfit] at h
      cases h
  · intro sc₂ h
    by_cases hfit : displayWidth content ≤ sc.remaining_space
    · rw [append_end_of_fits hfit, Option.some.injEq] at h
      rw [written_end_eq hwf hfit] at h
      have hrem : displayWidth content ≤ sc.free.stop - sc.free.start := hfit
      cases h
      refine ⟨rfl, rfl, ?_, ?_⟩
      · intro i hi
        show (LineCanvas.drawGo sc.canvas (sc.free.stop - displayWidth content)
          style content.data)[_]? = _
        rw [drawGo_getElem?_in content.data sc.canvas (sc.free.stop - displayWidth content)
          style i (hwidth ▸ hi) (by omega),
          List.getElem?_eq_getElem (hwidth ▸ hi)]
        rfl
      · intro j hj
        show (LineCanvas.drawGo sc.canvas (sc.free.stop - displayWidth content)
          style content.data)[j]? = _
        cases hj with
        | inl hj =>
          exact drawGo_getElem?_lt content.data sc.canvas _ style j hj
        | inr hj =>
          refine drawGo_getElem?_ge content.data sc.canvas _ style j ?_
          rw [← hwidth]
          omega
    · rw [append_end_of_not_fits hfit] at h
      cases h
  · rw [show sc.append_start style content = applyAppend sc Anchor.start style content from rfl]
    exact applyAppend_eq_none_iff
  · rw [show sc.append_end style content = applyAppend sc Anchor.stop style content from rfl]
    exact applyAppend_eq_none_iff

/-- Witness for C2 at a concrete state: a fresh 5-column compositor accepts
a 2-character fragment at the left edge. -/
theorem c2_append_contract_witness :
    (StatusCanvas.new ⟨5, 1⟩ ⟨0⟩).free.stop ≤ (StatusCanvas.new ⟨5, 1⟩ ⟨0⟩).canvas.length ∧
    (((StatusCanvas.new ⟨5, 1⟩ ⟨0⟩).append_start ⟨1⟩ "ab").isSome ↔
      displayWidth "ab" ≤ (StatusCanvas.new ⟨5, 1⟩ ⟨0⟩).remaining_space) :=
  ⟨by decide, (c2_append_contract (StatusCanvas.new ⟨5, 1⟩ ⟨0⟩) ⟨1⟩ "ab" (by decide)).1⟩

/-- **C3**: starting from a fresh compositor of width `W`, after every
prefix of an arbitrary operation sequence the free interval is not
inverted; the interval never re-grows (the left edge is monotonically
non-decreasing and the right edge monotonically non-increasing along the
run); the widths of the accepted fragments sum to at most `W`; and
`remaining_space` is the (saturating, hence never negative) difference
`stop - start`. -/
theorem c3_invariants (W : Nat) (base : Style) (ops : List Op) :
    (∀ n : Nat,
      (runOps (StatusCanvas.new ⟨W, 1⟩ base) (ops.take n)).free.start ≤
        (runOps (StatusCanvas.new ⟨W, 1⟩ base) (ops.take n)).free.stop) ∧
    (∀ n m : Nat, n ≤ m →
      (runOps (StatusCanvas.new ⟨W, 1⟩ base) (ops.take n)).free.start ≤
        (runOps (StatusCanvas.new ⟨W, 1⟩ base) (ops.take m)).free.start ∧
      (runOps (StatusCanvas.new ⟨W, 1⟩ base) (ops.take m)).free.stop ≤
        (runOps (StatusCanvas.new ⟨W, 1⟩ base) (ops.take n)).free.stop) ∧
    (acceptedWidths (StatusCanvas.new ⟨W, 1⟩ base) ops).sum ≤ W ∧
    (∀ sc : StatusCanvas, sc.remaining_space = sc.free.stop - sc.free.start) := by
  refine ⟨?_, ?_, ?_, fun sc => rfl⟩
  · intro n
    exact (runOps_inv (ops.take n) _ (new_inv ⟨W, 1⟩ base)).1
  · intro n m hnm
    have hm : m = n + (m - n) := by omega
    rw [hm, List.take_add, runOps_append]
    obtain ⟨h1, h2, _⟩ := runOps_mono ((ops.drop n).take (m - n))
      (runOps (StatusCanvas.new ⟨W, 1⟩ base) (ops.take n))
    exact ⟨h1, h2⟩
  · have hsum := acceptedWidths_sum ops (StatusCanvas.new ⟨W, 1⟩ base) (new_inv ⟨W, 1⟩ base)
    have hnew : (StatusCanvas.new ⟨W, 1⟩ base).remaining_space = W := by
      simp [StatusCanvas.new, StatusCanvas.remaining_space]
    omega

/-- Witness for C3: a run of three operations (the third rejected) on a
width-10 compositor, instantiating the monotonicity part at prefixes 1 ≤ 2. -/
theorem c3_invariants_witness :
    1 ≤ 2 ∧
    ((runOps (StatusCanvas.new ⟨10, 1⟩ ⟨0⟩)
        ([⟨Anchor.start, ⟨1⟩, "abc"⟩, ⟨Anchor.stop, ⟨2⟩, "de"⟩,
          ⟨Anchor.start, ⟨3⟩, "0123456789xyz"⟩].take 1)).free.start ≤
      (runOps (StatusCanvas.new ⟨10, 1⟩ ⟨0⟩)
        ([⟨Anchor.start, ⟨1⟩, "abc"⟩, ⟨Anchor.stop, ⟨2⟩, "de"⟩,
          ⟨Anchor.start, ⟨3⟩, "0123456789xyz"⟩].take 2)).free.start ∧
      (runOps (StatusCanvas.new ⟨10, 1⟩ ⟨0⟩)
        ([⟨Anchor.start, ⟨1⟩, "abc"⟩, ⟨Anchor.stop, ⟨2⟩, "de"⟩,
          ⟨Anchor.start, ⟨3⟩, "0123456789xyz"⟩].take 2)).free.stop ≤
      (runOps (StatusCanvas.new ⟨10, 1⟩ ⟨0⟩)
        ([⟨Anchor.start, ⟨1⟩, "abc"⟩, ⟨Anchor.stop, ⟨2⟩, "de"⟩,
          ⟨Anchor.start, ⟨3⟩, "0123456789xyz"⟩].take 1)).free.stop) :=
  ⟨by decide,
    (c3_invariants 10 ⟨0⟩
      [⟨Anchor.start, ⟨1⟩, "abc"⟩, ⟨Anchor.stop, ⟨2⟩, "de"⟩,
        ⟨Anchor.start, ⟨3⟩, "0123456789xyz"⟩]).2.1 1 2 (by decide)⟩

/-- **C4**: along any operation sequence on a fresh width-`W` compositor,
the column ranges of the accepted fragments are pairwise disjoint, and every
fragment accepted after any prefix lies entirely inside the free interval
current at that point (so no later write touches a column of an earlier
accepted fragment). -/
theorem c4_no_overlap (W : Nat) (base : Style) (ops : List Op) :
    List.Pairwise RangeDisjoint (acceptedRanges (StatusCanvas.new ⟨W, 1⟩ base) ops) ∧
    (∀ n : Nat,
      ∀ r ∈ acceptedRanges (runOps (StatusCanvas.new ⟨W, 1⟩ base) (ops.take n)) (ops.drop n),
        (runOps (StatusCanvas.new ⟨W, 1⟩ base) (ops.take n)).free.start ≤ r.1 ∧
          r.2 ≤ (runOps (StatusCanvas.new ⟨W, 1⟩ base) (ops.take n)).free.stop) := by
  constructor
  · exact acceptedRanges_pairwise ops _ (new_inv ⟨W, 1⟩ base)
  · intro n r hr
    exact acceptedRanges_subset (ops.drop n) _
      (runOps_inv (ops.take n) _ (new_inv ⟨W, 1⟩ base)) r hr

/-- Witness for C4: on a width-10 compositor, after the prefix of length 1
the fragment accepted from the right occupies `[8, 10)`, inside the free
interval `[2, 10)` current at its acceptance. -/
theorem c4_no_overlap_witness :
    ((8, 10) ∈ acceptedRanges
      (runOps (StatusCanvas.new ⟨10, 1⟩ ⟨0⟩)
        ([⟨Anchor.start, ⟨1⟩, "ab"⟩, ⟨Anchor.stop, ⟨2⟩, "cd"⟩].take 1))
      ([⟨Anchor.start, ⟨1⟩, "ab"⟩, ⟨Anchor.stop, ⟨2⟩, "cd"⟩].drop 1)) ∧
    ((runOps (StatusCanvas.new ⟨10, 1⟩ ⟨0⟩)
        ([⟨Anchor.start, ⟨1⟩, "ab"⟩, ⟨Anchor.stop, ⟨2⟩, "cd"⟩].take 1)).free.start ≤ 8 ∧
      10 ≤ (runOps (StatusCanvas.new ⟨10, 1⟩ ⟨0⟩)
        ([⟨Anchor.start, ⟨1⟩, "ab"⟩, ⟨Anchor.stop, ⟨2⟩, "cd"⟩].take 1)).free.stop) :=
  ⟨by decide,
    (c4_no_overlap 10 ⟨0⟩ [⟨Anchor.start, ⟨1⟩, "ab"⟩, ⟨Anchor.stop, ⟨2⟩, "cd"⟩]).2 1
      (8, 10) (by decide)⟩

/-- **C1**: in the fixed nine-fragment render order, if the appends of the
first `k` fragments all succeed (reaching state `sc'`) and the append of
fragment `k+1` fails to fit, the render's final buffer is exactly `sc'` —
none of the later fragments is drawn, whatever they are and whether or not
they would fit individually. -/
theorem c1_short_circuit (p : Properties) (frame : Size) (k : Nat)
    (hk : k < (statusFrags p).length) (sc' : StatusCanvas) (text : String)
    (hpre : chainAll (StatusCanvas.new frame p.theme.base) ((statusFrags p).take k) = some sc')
    (htext : (statusFrags p)[k].text = some text)
    (hfail : applyAppend sc' (statusFrags p)[k].anchor
      (statusFrags p)[k].style text = none) :
    StatusBar.view p frame = some sc' := by
  show renderFrags (StatusCanvas.new frame p.theme.base) (statusFrags p) = some sc'
  have hsplit : statusFrags p =
      (statusFrags p).take k ++
        ((statusFrags p)[k] :: (statusFrags p).drop (k + 1)) := by
    rw [← List.drop_eq_getElem_cons hk, List.take_append_drop]
  rw [hsplit]
  exact renderFrags_prefix_fail ((statusFrags p).take k) _ sc'
    (statusFrags p)[k] ((statusFrags p).drop (k + 1)) text hpre htext hfail

/-- Witness for C1: on a 6-column line, the two 3-column fragments `" 1 "`
and `" - "` exhaust the space, the third fragment (the unfocused indicator
`" "`) fails to fit, and the render's buffer is exactly the two-fragment
state — the remaining six fragments are never drawn. -/
theorem c1_short_circuit_witness :
    chainAll (StatusCanvas.new ⟨6, 1⟩ c1Props.theme.base) ((statusFrags c1Props).take 2) =
      some c1State ∧
    StatusBar.view c1Props ⟨6, 1⟩ = some c1State :=
  ⟨by decide,
    c1_short_circuit c1Props ⟨6, 1⟩ 2 (by decide) c1State " "
      (by decide) (by decide) (by decide)⟩

/-- **C5**: fragment 6 of the render order is the position-in-file text,
which is exactly `" Top "` on the first line; exactly `" End "` on line
`num_lines.saturating_sub(2)` (when not also the first line); and otherwise
`" {percent:>2}% "` with percent `100 * (current_line_index + 1) / num_lines`
for a positive line count and `100` (rendered `" 100% "`) for a zero line
count — the conditions tested in the source's order. -/
theorem c5_position_fragment (p : Properties) :
    (statusFrags p)[5]? =
      some ⟨Anchor.stop, p.theme.position_in_file,
        some (positionText p.current_line_index p.num_lines)⟩ ∧
    (p.current_line_index = 0 →
      positionText p.current_line_index p.num_lines = " Top ") ∧
    (p.current_line_index ≠ 0 → p.current_line_index = p.num_lines - 2 →
      positionText p.current_line_index p.num_lines = " End ") ∧
    (p.current_line_index ≠ 0 → p.current_line_index ≠ p.num_lines - 2 → 0 < p.num_lines →
      positionText p.current_line_index p.num_lines =
        " " ++ rightAlign (toString (100 * (p.current_line_index + 1) / p.num_lines)) 2 ++
          "% ") ∧
    (p.current_line_index ≠ 0 → p.num_lines = 0 →
      positionText p.current_line_index p.num_lines = " 100% ") := by
  refine ⟨rfl, ?_, ?_, ?_, ?_⟩
  · intro h
    unfold positionText
    rw [if_pos h]
  · intro h1 h2
    unfold positionText
    rw [if_neg h1, if_pos h2]
  · intro h1 h2 h3
    unfold positionText
    rw [if_neg h1, if_neg h2]
    unfold percentOf
    rw [if_pos h3]
  · intro h1 h2
    rw [h2]
    unfold positionText
    rw [if_neg h1, if_neg (by simpa using h1 : ¬ p.current_line_index = 0 - 2)]
    have hp : percentOf p.current_line_index 0 = 100 := by
      unfold percentOf
      rw [if_neg (by omega)]
    rw [hp]
    decide

/-- Witness for C5 at line 49 of 100: the percentage branch yields
`" 50% "`. -/
theorem c5_position_fragment_witness :
    (49 ≠ 0 ∧ 49 ≠ 100 - 2 ∧ 0 < 100) ∧ positionText 49 100 = " 50% " :=
  ⟨⟨by decide, by decide, by decide⟩,
    ((c5_position_fragment c5Props).2.2.2.1 (by decide) (by decide) (by decide)).trans
      (by decide)⟩

/-- **C6 counterexample**: the claim asserts the last glyph (index 7) is
selected at `current_line_index = num_lines - 1` for every `num_lines > 1`,
but at `num_lines = 2, current_line_index = 1` the formula rounds
`7 * (1/2) = 3.5` half-away-from-zero to `4` — an input where the `f32`
computation is exact, so the rational model coincides with the source. -/
theorem c6_counterexample :
    1 < 2 ∧ 1 = 2 - 1 ∧ progressIndex 1 2 = 4 ∧ progressIndex 1 2 ≠ 7 ∧
      PROGRESS_SYMBOLS[progressIndex 1 2]? = some '▃' := by
  have h := progressIndex_eq_div 1 2 (by decide)
  refine ⟨by decide, by decide, ?_, ?_, ?_⟩ <;> rw [h] <;> decide

/-- **C6 amended**: for the 8-glyph palette and `num_lines > 1`,
`current_line_index = 0` always selects index 0, while
`current_line_index = num_lines - 1` selects the last index (7) exactly when
`num_lines ≥ 14` (in the exact-arithmetic model of the `f32` formula); for
smaller files the last line selects a smaller index (e.g. 4 at
`num_lines = 2`). -/
theorem c6_amended (num_lines : Nat) (h : 1 < num_lines) :
    progressIndex 0 num_lines = 0 ∧
    (progressIndex (num_lines - 1) num_lines = PROGRESS_SYMBOLS.length - 1 ↔
      14 ≤ num_lines) := by
  have hn : num_lines ≠ 0 := by omega
  have hlen : PROGRESS_SYMBOLS.length - 1 = 7 := by decide
  rw [hlen]
  constructor
  · rw [progressIndex_eq_div 0 num_lines hn]
    have hz : (14 * 0 + num_lines) / (2 * num_lines) = 0 := Nat.div_eq_of_lt (by omega)
    omega
  · rw [progressIndex_eq_div (num_lines - 1) num_lines hn]
    constructor
    · intro he
      by_contra hlt
      push_neg at hlt
      have hub : (14 * (num_lines - 1) + num_lines) / (2 * num_lines) < 7 :=
        (Nat.div_lt_iff_lt_mul (by omega)).mpr (by omega)
      omega
    · intro h14
      have hle : 7 ≤ (14 * (num_lines - 1) + num_lines) / (2 * num_lines) :=
        (Nat.le_div_iff_mul_le (by omega)).mpr (by omega)
      have hlt : (14 * (num_lines - 1) + num_lines) / (2 * num_lines) < 8 :=
        (Nat.div_lt_iff_lt_mul (by omega)).mpr (by omega)
      omega

/-- Witness for C6 amended at `num_lines = 16`: the first line selects glyph
0 and the last line selects the last glyph, 16 being beyond the threshold
(and a power of two, where the `f32` division is exact). -/
theorem c6_amended_witness :
    1 < 16 ∧
      (progressIndex 0 16 = 0 ∧
        (progressIndex 15 16 = PROGRESS_SYMBOLS.length - 1 ↔ 14 ≤ 16)) :=
  ⟨by decide, c6_amended 16 (by decide)⟩

/-- **C7** (code-bug evidence): at `num_lines = 0` the percentage formula is
explicitly guarded and yields 100 (`" 100% "`), but the progress-glyph
formula is not guarded: dividing by a zero line count propagates NaN
(`current_line_index = 0`, saturating to glyph index 0 only through the
cast) or positive infinity (`current_line_index = 1`, saturating to
`usize::MAX`), and indexing the 8-glyph palette at `usize::MAX` is out of
bounds — the render panics instead of producing a defined value. -/
theorem c7_division_guard :
    percentOf 5 0 = 100 ∧
    positionText 5 0 = " 100% " ∧
    progressIndex 0 0 = 0 ∧
    progressIndex 1 0 = USIZE_MAX ∧
    PROGRESS_SYMBOLS[progressIndex 1 0]? = none := by
  refine ⟨by decide, by decide, by decide, by decide, ?_⟩
  apply List.getElem?_eq_none
  rw [show progressIndex 1 0 = USIZE_MAX from by decide]
  decide

/-- **C8 counterexample**: with a repository handle present whose head does
not resolve, the branch-fragment computation panics on `unwrap()` (modelled
`none`) — it does not produce the empty string the claim promises for
"every other case". -/
theorem c8_counterexample :
    branchText (some ⟨HeadResult.err ⟨0⟩⟩) = none ∧
      branchText (some ⟨HeadResult.err ⟨0⟩⟩) ≠ some "" := by
  exact ⟨rfl, by decide⟩

/-- **C8 amended**: fragment 9 is the branch text; it is `"{branch}  "`
when a repository is present and its head resolves to a shorthand name,
the empty string when no repository is present or when the head resolves
but has no shorthand, and when the head fails to resolve the computation
panics (`head().unwrap()`) instead of producing a value. -/
theorem c8_branch_fragment (p : Properties) :
    (statusFrags p)[8]? =
      some ⟨Anchor.stop, p.theme.position_in_file, branchText p.repository⟩ ∧
    (p.repository = none → branchText p.repository = some "") ∧
    (∀ repo reference, p.repository = some repo → repo.head = HeadResult.ok reference →
      branchText p.repository =
        some (match reference.shorthand with
          | some r => r ++ "  "
          | none => "")) ∧
    (∀ repo e, p.repository = some repo → repo.head = HeadResult.err e →
      branchText p.repository = none) := by
  refine ⟨rfl, ?_, ?_, ?_⟩
  · intro h
    rw [h]
    rfl
  · intro repo reference h1 h2
    obtain ⟨hd⟩ := repo
    have h2x : hd = HeadResult.ok reference := h2
    subst h2x
    obtain ⟨sh⟩ := reference
    rw [h1]
    cases sh <;> rfl
  · intro repo e h1 h2
    obtain ⟨hd⟩ := repo
    have h2x : hd = HeadResult.err e := h2
    subst h2x
    rw [h1]
    rfl

/-- Witness for C8 amended: a repository whose head resolves to shorthand
`main` produces the fragment `"main  "`. -/
theorem c8_branch_fragment_witness :
    (c8Props.repository = some ⟨HeadResult.ok ⟨some "main"⟩⟩) ∧
      branchText c8Props.repository = some "main  " :=
  ⟨rfl,
    ((c8_branch_fragment c8Props).2.2.1 ⟨HeadResult.ok ⟨some "main"⟩⟩ ⟨some "main"⟩
      rfl rfl).trans (by decide)⟩

/-- **C9**: rendering is deterministic — the view is a pure function of the
`Properties` snapshot and the frame size (every external effect the source
consults, including the repository head, is part of the snapshot), so two
renders from equal state and equal frame produce identical line buffers:
the same characters in the same columns with the same styles. -/
theorem c9_deterministic (p₁ p₂ : Properties) (f₁ f₂ : Size)
    (hp : p₁ = p₂) (hf : f₁ = f₂) :
    StatusBar.view p₁ f₁ = StatusBar.view p₂ f₂ := by
  subst hp
  subst hf
  rfl

/-- Witness for C9 at a concrete snapshot and a 40-column frame. -/
theorem c9_deterministic_witness :
    c9Props = c9Props ∧
      StatusBar.view c9Props ⟨40, 1⟩ = StatusBar.view c9Props ⟨40, 1⟩ :=
  ⟨rfl, c9_deterministic c9Props c9Props ⟨40, 1⟩ ⟨40, 1⟩ rfl rfl⟩

/-- **C10**: for a focused render with `num_lines ≥ 1` and
`current_line_index ≤ num_lines` the computed glyph index is at most 7, so
indexing the 8-glyph palette never goes out of bounds; and at
`num_lines = 0` with `current_line_index = 0` the NaN produced by `0.0/0.0`
saturates to index 0 under Rust's float-to-usize cast, selecting the first
(full) glyph. -/
theorem c10_progress_index_bounds (current_line_index num_lines : Nat) :
    (1 ≤ num_lines → current_line_index ≤ num_lines →
      progressIndex current_line_index num_lines ≤ 7 ∧
        (PROGRESS_SYMBOLS[progressIndex current_line_index num_lines]?).isSome) ∧
    (num_lines = 0 → current_line_index = 0 →
      progressIndex current_line_index num_lines = 0 ∧
        PROGRESS_SYMBOLS[progressIndex current_line_index num_lines]? = some '▇') := by
  constructor
  · intro h1 h2
    have hle := progressIndex_le_seven current_line_index num_lines h1 h2
    refine ⟨hle, ?_⟩
    have hlen : progressIndex current_line_index num_lines < PROGRESS_SYMBOLS.length := by
      have h8 : PROGRESS_SYMBOLS.length = 8 := by decide
      omega
    rw [List.getElem?_eq_getElem hlen]
    rfl
  · intro h1 h2
    subst h1
    subst h2
    exact ⟨by decide, by decide⟩

/-- Witness for C10 at line 5 of 10 (a focused render mid-file). -/
theorem c10_progress_index_bounds_witness :
    (1 ≤ 10 ∧ 5 ≤ 10) ∧
      (progressIndex 5 10 ≤ 7 ∧ (PROGRESS_SYMBOLS[progressIndex 5 10]?).isSome) :=
  ⟨⟨by decide, by decide⟩,
    (c10_progress_index_bounds 5 10).1 (by decide) (by decide)⟩

end ZeeStatusBar
